import Mathlib

/-!
Verification of the chess-arena engine (`app/move.py`, `app/board.py`).

The Python source is embedded shallowly:
* squares are pairs of `Int` (Python ints), row 0 = rank 8;
* the 8x8 grid is a total function `Int → Int → Char` ('.' = empty,
  uppercase = white, lowercase = black), mirroring the list-of-lists with
  every access in the modelled code paths guarded by `is_inside` or made at
  fixed in-range indices;
* the mutable `Board` object is threaded explicitly; operations that mutate
  it in place return the updated value;
* `raise ValueError` becomes `Except.error`; for `Board.make_move` the error
  value carries the board as it stands when the exception is raised, because
  the validation phase can itself mutate the grid.
-/

namespace Chess

/-- A grid cell content, indexed by (row, column). -/
abbrev Grid := Int → Int → Char

/-- `Move.__init__`'s coordinate domain check `0 <= row < 8 and 0 <= col < 8`
(`Move._is_valid_position`; the `isinstance` checks hold by typing here). -/
def isValidPosition (pos : Int × Int) : Bool :=
  decide (0 ≤ pos.1 ∧ pos.1 < 8 ∧ 0 ≤ pos.2 ∧ pos.2 < 8)

/-- The `Move` value object: source and target squares plus an optional
one-character promotion code (`app/move.py`). -/
structure Move where
  source : Int × Int
  target : Int × Int
  promotion : Option Char
deriving DecidableEq, Repr

/-- In `Move.__init__` the promotion guard is
`promotion is not None and not isinstance(promotion, str) and promotion not in "qbnr"`.
In this typed embedding every present promotion is a Python `str` of length
one, so `isinstance(promotion, str)` is `True` exactly when the promotion is
present, which is what this function returns. -/
def promotionIsPyStr (p : Option Char) : Bool :=
  p.isSome

/-- The third conjunct `promotion not in "qbnr"` of the promotion guard.
For `None` the Python expression would raise `TypeError`, but short-circuit
evaluation makes that case unreachable; the value returned for `none` here is
irrelevant for the same reason. -/
def promotionNotInQbnr (p : Option Char) : Bool :=
  match p with
  | some c => !("qbnr".data.contains c)
  | none => true

/-- `Move.__init__` (`app/move.py`, lines 20-42). -/
def moveInit (source target : Int × Int) (promotion : Option Char) :
    Except String Move :=
  if ¬ isValidPosition source then .error "OutOfRange: invalid source position"
  else if ¬ isValidPosition target then .error "OutOfRange: invalid target position"
  else if promotion.isSome ∧ ¬ promotionIsPyStr promotion ∧ promotionNotInQbnr promotion then
    .error "InvalidPromotion"
  else .ok { source := source, target := target, promotion := promotion }

/-- `Move._algebraic_to_index` (`app/move.py`, lines 73-96): length check,
then `file_char.lower() not in 'abcdefgh' or rank_char not in '12345678'`,
then `(8 - int(rank_char), ord(file_char.lower()) - ord('a'))`. -/
def algebraicToIndex (square : String) : Except String (Int × Int) :=
  match square.data with
  | [fileChar, rankChar] =>
    if ¬ ("abcdefgh".data.contains fileChar.toLower) ∨
       ¬ ("12345678".data.contains rankChar) then
      .error "MalformedNotation: file or rank out of range"
    else
      .ok (8 - ((rankChar.toNat : Int) - ('0'.toNat : Int)),
           ((fileChar.toLower.toNat : Int) - ('a'.toNat : Int)))
  | _ => .error "MalformedNotation: must be exactly two characters"

/-- `Move.from_algebraic` (`app/move.py`, lines 44-71): convert both
endpoints, re-check them with `_is_valid_position`, then delegate to
`Move.__init__`. -/
def fromAlgebraic (source target : String) (promotion : Option Char) :
    Except String Move :=
  match algebraicToIndex source with
  | .error e => .error e
  | .ok src =>
    match algebraicToIndex target with
    | .error e => .error e
    | .ok dst =>
      if ¬ isValidPosition src then .error "MalformedNotation: source converts out of board"
      else if ¬ isValidPosition dst then .error "MalformedNotation: target converts out of board"
      else moveInit src dst promotion

/-- `is_inside` from `Board.get_valid_moves`: `0 <= r < 8 and 0 <= c < 8`. -/
abbrev isInside (r c : Int) : Prop :=
  0 ≤ r ∧ r < 8 ∧ 0 ≤ c ∧ c < 8

/-- All 64 board coordinates in the iteration order `for i in range(8): for j
in range(8)` used by `find`, `get_all_valid_moves` and `is_under_attack`. -/
def allSquares : List (Int × Int) :=
  (List.range 8).foldr (fun i acc =>
    (List.range 8).foldr (fun j acc2 => ((i : Int), (j : Int)) :: acc2) acc) []

/-- Point update of the grid, the Python assignment `board[r][c] = v` (every
assignment in the modelled paths has in-range indices). -/
def setCell (g : Grid) (r c : Int) (v : Char) : Grid :=
  fun r' c' => if r' = r ∧ c' = c then v else g r' c'

/-- The board state object (`Board.__init__`): grid, side to move, the four
castling-rights flags (`castling['K'/'Q'/'k'/'q']`), the two check flags, the
en-passant target, and the move counters. -/
structure Board where
  grid : Grid
  whiteTurn : Bool
  castleWK : Bool
  castleWQ : Bool
  castleBK : Bool
  castleBQ : Bool
  whiteInCheck : Bool
  blackInCheck : Bool
  enPassant : Option (Int × Int)
  halfmoveClock : Nat
  fullmoveNumber : Nat

/-- `Board.__init__` applied to a supplied position. -/
def mkBoard (g : Grid) : Board :=
  { grid := g, whiteTurn := true,
    castleWK := true, castleWQ := true, castleBK := true, castleBQ := true,
    whiteInCheck := false, blackInCheck := false,
    enPassant := none, halfmoveClock := 0, fullmoveNumber := 1 }

/-- `Board.make_raw_move`: read the piece at the source, blank the source,
write the piece at the target (no validation, no other state change). -/
def rawMove (g : Grid) (src dst : Int × Int) : Grid :=
  let piece := g src.1 src.2
  setCell (setCell g src.1 src.2 '.') dst.1 dst.2 piece

/-- A conditional one-element list: the building block for every guarded
`moves.append(...)` in `get_valid_moves`. -/
def appendIf (c : Prop) [Decidable c] (x : Int × Int) : List (Int × Int) :=
  if c then [x] else []

/-- Pawn moves (`get_valid_moves`, pawn branch): one forward step onto an
empty square, a double step from the start rank when both squares are empty
(both suppressed by `attack_moves_only`), and for each diagonal a capture of
an opposing piece and/or the en-passant square. -/
def pawnMoves (b : Board) (row col : Int) (isWhite attackOnly : Bool) :
    List (Int × Int) :=
  let dir : Int := if isWhite then -1 else 1
  let startRow : Int := if isWhite then 6 else 1
  let fwd : List (Int × Int) :=
    if attackOnly then []
    else if isInside (row + dir) col ∧ b.grid (row + dir) col = '.' then
      (row + dir, col) ::
        appendIf (row = startRow ∧ isInside (row + 2 * dir) col ∧
                  b.grid (row + 2 * dir) col = '.') (row + 2 * dir, col)
    else []
  let cap : Int → List (Int × Int) := fun dc =>
    if isInside (row + dir) (col + dc) then
      appendIf (b.grid (row + dir) (col + dc) ≠ '.' ∧
                (b.grid (row + dir) (col + dc)).isUpper ≠ isWhite)
        (row + dir, col + dc) ++
      (match b.enPassant with
       | some ep => appendIf (row + dir = ep.1 ∧ col + dc = ep.2) (row + dir, col + dc)
       | none => [])
    else []
  fwd ++ cap (-1) ++ cap 1

/-- The eight knight offsets, in source order. -/
def knightOffsets : List (Int × Int) :=
  [(2, 1), (2, -1), (-2, 1), (-2, -1), (1, 2), (1, -2), (-1, 2), (-1, -2)]

/-- The eight king offsets, in source order. -/
def kingOffsets : List (Int × Int) :=
  [(-1, -1), (-1, 0), (-1, 1), (0, -1), (0, 1), (1, -1), (1, 0), (1, 1)]

/-- Knight and plain king moves: for each offset, the destination is added
when it is on the board and empty or occupied by an opposing piece. -/
def stepMoves (b : Board) (row col : Int) (isWhite : Bool)
    (offsets : List (Int × Int)) : List (Int × Int) :=
  offsets.foldr (fun o acc =>
    appendIf (isInside (row + o.1) (col + o.2) ∧
              (b.grid (row + o.1) (col + o.2) = '.' ∨
               (b.grid (row + o.1) (col + o.2)).isUpper ≠ isWhite))
      (row + o.1, col + o.2) ++ acc) []

/-- One sliding ray (`while True` loop of the rook/bishop/queen branches):
step in direction (dr, dc), stop at the board edge, include then stop at an
opposing piece, stop before an own piece. The source loop runs at most 8
iterations from an on-board start (the moving coordinate leaves [0,7]), so
fuel 8 at the call site reproduces it exactly. -/
def rayMoves (b : Board) (isWhite : Bool) (dr dc : Int) :
    Int → Int → Nat → List (Int × Int)
  | _, _, 0 => []
  | r, c, fuel + 1 =>
    if isInside (r + dr) (c + dc) then
      if b.grid (r + dr) (c + dc) = '.' then
        (r + dr, c + dc) :: rayMoves b isWhite dr dc (r + dr) (c + dc) fuel
      else if (b.grid (r + dr) (c + dc)).isUpper ≠ isWhite then
        [(r + dr, c + dc)]
      else []
    else []

/-- Sliding moves over a direction set, in source order. -/
def slideMoves (b : Board) (row col : Int) (isWhite : Bool)
    (dirs : List (Int × Int)) : List (Int × Int) :=
  dirs.foldr (fun d acc => rayMoves b isWhite d.1 d.2 row col 8 ++ acc) []

/-- The rook directions, in source order. -/
def rookDirs : List (Int × Int) := [(-1, 0), (1, 0), (0, -1), (0, 1)]

/-- The bishop directions, in source order. -/
def bishopDirs : List (Int × Int) := [(-1, -1), (-1, 1), (1, -1), (1, 1)]

/-- The queen directions, in source order. -/
def queenDirs : List (Int × Int) :=
  [(-1, 0), (1, 0), (0, -1), (0, 1), (-1, -1), (-1, 1), (1, -1), (1, 1)]

/-- `get_valid_moves` without the castling block and without pin filtering:
the piece dispatch on `piece.upper()` over the move tables above. Castling is
appended separately (`genMoves`) because the castling block queries
`is_under_attack`, which itself calls this function with
`attack_moves_only=True` — on that path the source never reaches the castling
block, so the stratification is faithful. -/
def genMovesNoCastle (b : Board) (pos : Int × Int) (attackOnly : Bool) :
    List (Int × Int) :=
  let piece := b.grid pos.1 pos.2
  if piece = '.' then []
  else
    let isWhite := piece.isUpper
    if piece.toUpper = 'P' then pawnMoves b pos.1 pos.2 isWhite attackOnly
    else if piece.toUpper = 'N' then stepMoves b pos.1 pos.2 isWhite knightOffsets
    else if piece.toUpper = 'R' then slideMoves b pos.1 pos.2 isWhite rookDirs
    else if piece.toUpper = 'B' then slideMoves b pos.1 pos.2 isWhite bishopDirs
    else if piece.toUpper = 'Q' then slideMoves b pos.1 pos.2 isWhite queenDirs
    else if piece.toUpper = 'K' then stepMoves b pos.1 pos.2 isWhite kingOffsets
    else []

/-- `Board.is_under_attack(pos, white_is_attacking)`: scan every square in
order; a square attacks `pos` when its occupant's case matches the attacking
color and `pos` is among its `attack_moves_only=True, validate_pin=False`
moves (for which `get_valid_moves` equals `genMovesNoCastle`). -/
def isUnderAttack (b : Board) (pos : Int × Int) (whiteIsAttacking : Bool) : Bool :=
  allSquares.any fun s =>
    decide ((b.grid s.1 s.2).isUpper = whiteIsAttacking ∧
            pos ∈ genMovesNoCastle b s true)

/-- `Board.find(piece)`: all squares holding `piece`, in scan order. -/
def findPiece (g : Grid) (piece : Char) : List (Int × Int) :=
  allSquares.filter fun s => g s.1 s.2 = piece

/-- `Board.in_check(white)`: locate that color's king (`find(...)[0]`) and ask
whether the opposite color attacks its square. When no king exists the source
raises `IndexError`; that state is outside the spec's one-king-per-color
precondition, and this embedding returns `false` there. -/
def inCheck (b : Board) (white : Bool) : Bool :=
  match (findPiece b.grid (if white then 'K' else 'k')).head? with
  | some p => isUnderAttack b p (!white)
  | none => false

/-- The castling block of the king branch of `get_valid_moves` (only reached
with `attack_moves_only=False`): for each wing, the rights flag must be set,
the squares between king and rook must be empty, the rook must be on its home
square, and the listed squares must not be attacked by the opponent (f1/g1,
d1/c1/b1 and their rank-8 mirrors in the source). -/
def castleMoves (b : Board) (row col : Int) (isWhite : Bool) :
    List (Int × Int) :=
  if isWhite ∧ row = 7 ∧ col = 4 then
    appendIf (b.castleWK = true ∧ b.grid 7 5 = '.' ∧ b.grid 7 6 = '.' ∧
              b.grid 7 7 = 'R' ∧ ¬ isUnderAttack b (7, 5) false = true ∧
              ¬ isUnderAttack b (7, 6) false = true) (7, 6) ++
    appendIf (b.castleWQ = true ∧ b.grid 7 3 = '.' ∧ b.grid 7 2 = '.' ∧
              b.grid 7 1 = '.' ∧ b.grid 7 0 = 'R' ∧
              ¬ isUnderAttack b (7, 3) false = true ∧
              ¬ isUnderAttack b (7, 2) false = true ∧
              ¬ isUnderAttack b (7, 1) false = true) (7, 2)
  else if ¬ isWhite ∧ row = 0 ∧ col = 4 then
    appendIf (b.castleBK = true ∧ b.grid 0 5 = '.' ∧ b.grid 0 6 = '.' ∧
              b.grid 0 7 = 'r' ∧ ¬ isUnderAttack b (0, 5) true = true ∧
              ¬ isUnderAttack b (0, 6) true = true) (0, 6) ++
    appendIf (b.castleBQ = true ∧ b.grid 0 3 = '.' ∧ b.grid 0 2 = '.' ∧
              b.grid 0 1 = '.' ∧ b.grid 0 0 = 'r' ∧
              ¬ isUnderAttack b (0, 3) true = true ∧
              ¬ isUnderAttack b (0, 2) true = true ∧
              ¬ isUnderAttack b (0, 1) true = true) (0, 2)
  else []

/-- `get_valid_moves` before pin filtering: the piece move tables plus, for a
king when `attack_moves_only=False`, the castling destinations. -/
def genMoves (b : Board) (pos : Int × Int) (attackOnly : Bool) :
    List (Int × Int) :=
  genMovesNoCastle b pos attackOnly ++
    (if (b.grid pos.1 pos.2).toUpper = 'K' ∧ ¬ attackOnly then
       castleMoves b pos.1 pos.2 (b.grid pos.1 pos.2).isUpper
     else [])

/-- `list.remove(x)`: drop the first occurrence of `x`. -/
def removeFirst : List (Int × Int) → (Int × Int) → List (Int × Int)
  | [], _ => []
  | x :: xs, m => if x = m then xs else x :: removeFirst xs m

/-- The pin-verification loop of `get_valid_moves`:
`for move in moves:` iterates by index over the list it mutates, so removing
the current element makes the next one be skipped; each iteration plays the
raw move, asks `in_check(self.board[row][col].isupper())` — reading the
source square *after* the relocation — removes the move if that returns true,
and undoes the relocation with a second raw move, which does not restore a
captured piece. The loop runs at most `moves.length` iterations (the index
grows, the length never does), so that is the fuel. -/
def pinFilterAux (pos : Int × Int) :
    Nat → Nat → List (Int × Int) → Board → List (Int × Int) × Board
  | 0, _, ms, b => (ms, b)
  | fuel + 1, i, ms, b =>
    if h : i < ms.length then
      let m := ms.get ⟨i, h⟩
      let b1 : Board := { b with grid := rawMove b.grid pos m }
      let ms' := if inCheck b1 (b1.grid pos.1 pos.2).isUpper then removeFirst ms m else ms
      let b2 : Board := { b1 with grid := rawMove b1.grid m pos }
      pinFilterAux pos fuel (i + 1) ms' b2
    else (ms, b)

/-- `Board.get_valid_moves(pos, attack_moves_only, validate_pin)`. The pin
filter physically mutates the grid (its undo step does not restore captured
pieces), so the possibly-updated board is returned alongside the list. -/
def getValidMoves (b : Board) (pos : Int × Int)
    (attackOnly validatePin : Bool) : List (Int × Int) × Board :=
  let moves := genMoves b pos attackOnly
  if validatePin then pinFilterAux pos moves.length 0 moves b else (moves, b)

/-- `make_move` step: set the en-passant target (`board.py`, lines 142-150).
Some (skipped square) when the source piece is a pawn standing on the mover's
start row and the target row is the two-square row; `None` otherwise. -/
def setEnPassantStep (b : Board) (src dst : Int × Int) : Board :=
  let pawnStartRow : Int := if b.whiteTurn then 6 else 1
  let pawnTwoMoveRow : Int := if b.whiteTurn then 4 else 3
  { b with enPassant :=
      if (b.grid src.1 src.2).toUpper = 'P' ∧ src.1 = pawnStartRow ∧
         dst.1 = pawnTwoMoveRow then
        some (if b.whiteTurn then src.1 - 1 else src.1 + 1, src.2)
      else none }

/-- `make_move` step: revoke castling rights (`board.py`, lines 152-166).
Moving from the square `find` reports for the mover's king clears both of
that color's rights; moving a piece whose `upper()` is 'R' from the mover's
queenside or kingside rook home square clears the matching single right.
`find(...)[0]` on a kingless board raises `IndexError` in the source; the
`(-1, -1)` default here is an off-board sentinel that never equals a move
source, which matches no behavior the spec defines for that state. -/
def castlingRightsStep (b : Board) (src : Int × Int) : Board :=
  let kingPos := (findPiece b.grid (if b.whiteTurn then 'K' else 'k')).head?.getD (-1, -1)
  let b :=
    if kingPos = src then
      if b.whiteTurn then { b with castleWK := false, castleWQ := false }
      else { b with castleBK := false, castleBQ := false }
    else b
  let queenRookPos : Int × Int := if b.whiteTurn then (7, 0) else (0, 0)
  let b :=
    if (b.grid src.1 src.2).toUpper = 'R' ∧ src = queenRookPos then
      if b.whiteTurn then { b with castleWQ := false } else { b with castleBQ := false }
    else b
  let kingRookPos : Int × Int := if b.whiteTurn then (7, 7) else (0, 7)
  if (b.grid src.1 src.2).toUpper = 'R' ∧ src = kingRookPos then
    if b.whiteTurn then { b with castleWK := false } else { b with castleBK := false }
  else b

/-- `make_move` step: clear the mover's own check flag (lines 171-175). -/
def clearOwnCheckStep (b : Board) : Board :=
  if b.whiteTurn then { b with whiteInCheck := false } else { b with blackInCheck := false }

/-- `make_move` step: the half-move clock (lines 177-182). The source reads
the grid *after* the relocation: the source square is already blank and the
destination already holds the moved piece. -/
def halfmoveClockStep (b : Board) (src dst : Int × Int) : Board :=
  if (b.grid src.1 src.2).toUpper = 'P' ∨ (b.grid dst.1 dst.2).toUpper ≠ '.' then
    { b with halfmoveClock := 0 }
  else
    { b with halfmoveClock := b.halfmoveClock + 1 }

/-- `make_move` step: the full-move number (lines 184-186). -/
def fullmoveStep (b : Board) : Board :=
  if ¬ b.whiteTurn then { b with fullmoveNumber := b.fullmoveNumber + 1 } else b

/-- `make_move` step: flip the turn (line 189). -/
def flipTurnStep (b : Board) : Board :=
  { b with whiteTurn := ¬ b.whiteTurn }

/-- `make_move` step: recompute the new side-to-move's check flag
(lines 191-195). -/
def newCheckStep (b : Board) : Board :=
  if b.whiteTurn then { b with whiteInCheck := inCheck b b.whiteTurn }
  else { b with blackInCheck := inCheck b b.whiteTurn }

/-- Everything `make_move` does after validation succeeds, in source order:
en-passant target, castling rights, the raw relocation, the mover's check
flag, the half-move clock, the full-move number, the turn flip, the new
side's check flag. -/
def applyCommit (b : Board) (src dst : Int × Int) : Board :=
  newCheckStep (flipTurnStep (fullmoveStep (halfmoveClockStep
    (clearOwnCheckStep
      (let b3 := castlingRightsStep (setEnPassantStep b src dst) src
       { b3 with grid := rawMove b3.grid src dst })) src dst)))

/-- `Board.make_move` (`board.py`, lines 129-195): validate by membership of
the target in `get_valid_moves(source)` (default flags: full generation with
pin filtering) plus the non-empty and right-color checks, raising
`ValueError` otherwise, then commit. Validation itself can mutate the grid
(the pin probes), so the error value carries the board state at raise time. -/
def makeMove (b0 : Board) (mv : Move) : Except Board Board :=
  let res := getValidMoves b0 mv.source false true
  let b := res.2
  if mv.target ∉ res.1 ∨ b.grid mv.source.1 mv.source.2 = '.' ∨
     (b.grid mv.source.1 mv.source.2).isUpper ≠ b.whiteTurn then
    .error b
  else
    .ok (applyCommit b mv.source mv.target)

/-- Extract the board carried by an error result (closed-form accessor for
stating concrete evaluations; the fallback is returned for `ok`). -/
def errBoard (e : Except Board Board) (fallback : Board) : Board :=
  match e with
  | .error bd => bd
  | .ok _ => fallback

/-- Extract the board carried by a successful result (fallback for `error`). -/
def okBoard (e : Except Board Board) (fallback : Board) : Board :=
  match e with
  | .ok bd => bd
  | .error _ => fallback

/-- Whether a `make_move` call succeeded. -/
def isOkB : Except Board Board → Bool
  | .ok _ => true
  | .error _ => false

/-- Whether a `Move` construction succeeded. -/
def isOkE {α : Type} : Except String α → Bool
  | .ok _ => true
  | .error _ => false

/-- Spec-side description of a well-formed algebraic square, written from the
spec's words for claim C8 (amended): exactly two characters, file letter in
'a'-'h' after lowercasing, rank digit in '1'-'8'. -/
def wfSquare (s : String) : Bool :=
  match s.data with
  | [fileChar, rankChar] =>
    ("abcdefgh".data.contains fileChar.toLower) &&
    ("12345678".data.contains rankChar)
  | _ => false

/-- Spec-side conversion of a well-formed algebraic square:
row = 8 − rank digit, column = lowercased file letter's offset from 'a'.
The value on ill-formed input is irrelevant (guarded by `wfSquare`). -/
def convSquare (s : String) : Int × Int :=
  match s.data with
  | [fileChar, rankChar] =>
    (8 - ((rankChar.toNat : Int) - ('0'.toNat : Int)),
     ((fileChar.toLower.toNat : Int) - ('a'.toNat : Int)))
  | _ => (0, 0)

/-- Build a grid from a piece list (squares not listed are empty). -/
def gridOfPieces (ps : List ((Int × Int) × Char)) : Grid :=
  fun r c =>
    ((ps.find? fun p => decide (p.1.1 = r ∧ p.1.2 = c)).map Prod.snd).getD '.'

/-- C1 board: white rook a1, black pawn a3, white king e1, black king e8. -/
def boardC1 : Board :=
  mkBoard (gridOfPieces [((7, 0), 'R'), ((5, 0), 'p'), ((7, 4), 'K'), ((0, 4), 'k')])

/-- C1 move: rook a1 to a8, which is not a legal destination (the pawn on a3
blocks the file), so `make_move` raises. -/
def moveC1 : Move := { source := (7, 0), target := (0, 0), promotion := none }

/-- C2 board: white king e1, white rook e2 (pinned), black rook e8, black
king h8. -/
def boardC2 : Board :=
  mkBoard (gridOfPieces [((7, 4), 'K'), ((6, 4), 'R'), ((0, 4), 'r'), ((0, 7), 'k')])

/-- C3 board: white rook a1, white king e1, black king e8, half-move clock 5. -/
def boardC3 : Board :=
  { mkBoard (gridOfPieces [((7, 0), 'R'), ((7, 4), 'K'), ((0, 4), 'k')]) with
    halfmoveClock := 5 }

/-- C3 move: the quiet rook move a1-a2. -/
def moveC3 : Move := { source := (7, 0), target := (6, 0), promotion := none }

/-- C4 counterexample board: white king e1 *in check from the black rook on
e8*, white rook h1, f1/g1 empty, black king a8. -/
def boardC4 : Board :=
  mkBoard (gridOfPieces [((7, 4), 'K'), ((7, 7), 'R'), ((0, 4), 'r'), ((0, 0), 'k')])

/-- C4 witness board: white king e1, white rook h1, black king a8, nothing
attacking the first rank. -/
def boardC4w : Board :=
  mkBoard (gridOfPieces [((7, 4), 'K'), ((7, 7), 'R'), ((0, 0), 'k')])

/-- C5 witness board: white pawn e2, white king e1, black king e8. -/
def boardC5 : Board :=
  mkBoard (gridOfPieces [((6, 4), 'P'), ((7, 4), 'K'), ((0, 4), 'k')])

/-- C5 witness move: the double pawn advance e2-e4. -/
def moveC5 : Move := { source := (6, 4), target := (4, 4), promotion := none }

/-- C6 witness board: white king e1, black king a8. -/
def boardC6 : Board :=
  mkBoard (gridOfPieces [((7, 4), 'K'), ((0, 0), 'k')])

/-- C6 witness move: the king move e1-e2. -/
def moveC6 : Move := { source := (7, 4), target := (6, 4), promotion := none }

/-- C9 board: white pawn d5, black pawn e5 (just advanced two squares, en
passant target e6), a black knight on c6 (capturable by the d5 pawn), white
king h1, black king a8. -/
def boardC9 : Board :=
  { mkBoard (gridOfPieces [((3, 3), 'P'), ((3, 4), 'p'), ((2, 2), 'n'),
      ((7, 7), 'K'), ((0, 0), 'k')]) with
    enPassant := some (2, 4) }

/-- C9 move: the en-passant capture d5xe6. -/
def moveC9 : Move := { source := (3, 3), target := (2, 4), promotion := none }

/-- Spec-side (claim C5): the committed move is a two-square pawn advance —
the source square holds a pawn, stands on the mover's start row, and the
target is the square two rows ahead in the same column. -/
def isTwoSquarePawnAdvance (b : Board) (mv : Move) : Prop :=
  (b.grid mv.source.1 mv.source.2).toUpper = 'P' ∧
  mv.source.1 = (if b.whiteTurn then 6 else 1) ∧
  mv.target = ((if b.whiteTurn then (4 : Int) else 3), mv.source.2)

instance (b : Board) (mv : Move) : Decidable (isTwoSquarePawnAdvance b mv) := by
  unfold isTwoSquarePawnAdvance; infer_instance

/-- Spec-side (claim C5): the square a two-square pawn advance skips — the
square between source and target in the source file. -/
def skippedSquare (b : Board) (mv : Move) : Int × Int :=
  (if b.whiteTurn then mv.source.1 - 1 else mv.source.1 + 1, mv.source.2)

/-- All non-grid fields agree (the pin probes touch only the grid). -/
def sameCtrl (a b : Board) : Prop :=
  a.whiteTurn = b.whiteTurn ∧ a.castleWK = b.castleWK ∧ a.castleWQ = b.castleWQ ∧
  a.castleBK = b.castleBK ∧ a.castleBQ = b.castleBQ ∧
  a.whiteInCheck = b.whiteInCheck ∧ a.blackInCheck = b.blackInCheck ∧
  a.enPassant = b.enPassant ∧ a.halfmoveClock = b.halfmoveClock ∧
  a.fullmoveNumber = b.fullmoveNumber

/-- Membership in a guarded one-element append. -/
theorem mem_appendIf {c : Prop} [Decidable c] {x y : Int × Int} :
    y ∈ appendIf c x ↔ c ∧ y = x := by
  unfold appendIf
  split <;> simp_all

/-- Removing an element yields a subset. -/
theorem removeFirst_subset (m x : Int × Int) (l : List (Int × Int))
    (h : x ∈ removeFirst l m) : x ∈ l := by
  induction l with
  | nil => simp [removeFirst] at h
  | cons a t ih =>
    simp only [removeFirst] at h
    split at h
    · exact List.mem_cons_of_mem _ h
    · rcases List.mem_cons.mp h with h1 | h1
      · exact h1 ▸ List.mem_cons_self _ _
      · exact List.mem_cons_of_mem _ (ih h1)

/-- The probe-then-undo pair of raw moves leaves any cell either unchanged or
blanked, the blanked cells being the probed destination. -/
theorem rawMove_roundtrip (g : Grid) (p m : Int × Int) (r c : Int) :
    rawMove (rawMove g p m) m p r c = g r c ∨
    (rawMove (rawMove g p m) m p r c = '.' ∧ (r, c) = m ∧ m ≠ p) := by
  simp only [rawMove, setCell]
  by_cases h1 : r = p.1 ∧ c = p.2
  · rw [if_pos h1]
    left
    simp [h1.1, h1.2]
  · rw [if_neg h1]
    by_cases h2 : r = m.1 ∧ c = m.2
    · rw [if_pos h2]
      by_cases hmp : m = p
      · exact absurd ⟨h2.1.trans (congrArg Prod.fst hmp),
          h2.2.trans (congrArg Prod.snd hmp)⟩ h1
      · exact Or.inr ⟨rfl, Prod.ext_iff.mpr ⟨h2.1, h2.2⟩, hmp⟩
    · rw [if_neg h2, if_neg h2, if_neg h1]
      exact Or.inl rfl

/-- The probe-then-undo pair restores the probed piece's own square. -/
theorem rawMove_roundtrip_at (g : Grid) (p m : Int × Int) :
    rawMove (rawMove g p m) m p p.1 p.2 = g p.1 p.2 := by
  simp [rawMove, setCell]

/-- The pin-verification loop only removes candidate moves, touches no field
but the grid, blanks at most the probed destinations, and restores the moving
piece's own square. -/
theorem pinFilterAux_spec (pos : Int × Int) :
    ∀ (fuel i : Nat) (ms : List (Int × Int)) (b : Board),
      (∀ x ∈ (pinFilterAux pos fuel i ms b).1, x ∈ ms) ∧
      sameCtrl (pinFilterAux pos fuel i ms b).2 b ∧
      (∀ r c, (pinFilterAux pos fuel i ms b).2.grid r c = b.grid r c ∨
              (pinFilterAux pos fuel i ms b).2.grid r c = '.') ∧
      (pinFilterAux pos fuel i ms b).2.grid pos.1 pos.2 = b.grid pos.1 pos.2 := by
  intro fuel
  induction fuel with
  | zero =>
    intro i ms b
    exact ⟨fun x hx => hx, ⟨rfl, rfl, rfl, rfl, rfl, rfl, rfl, rfl, rfl, rfl⟩,
      fun r c => Or.inl rfl, rfl⟩
  | succ n ih =>
    intro i ms b
    rw [pinFilterAux]
    split
    · next h =>
      set m := ms.get ⟨i, h⟩ with hm
      set b1 : Board := { b with grid := rawMove b.grid pos m } with hb1
      set ms' := if inCheck b1 (b1.grid pos.1 pos.2).isUpper then removeFirst ms m else ms
        with hms'
      set b2 : Board := { b1 with grid := rawMove b1.grid m pos } with hb2
      obtain ⟨ihsub, ihctrl, ihgrid, ihpos⟩ := ih (i + 1) ms' b2
      refine ⟨?_, ?_, ?_, ?_⟩
      · intro x hx
        have hx' := ihsub x hx
        rw [hms'] at hx'
        split at hx'
        · exact removeFirst_subset m x ms hx'
        · exact hx'
      · exact ihctrl
      · intro r c
        rcases ihgrid r c with hg | hg
        · rw [hg, hb2, hb1]
          rcases rawMove_roundtrip b.grid pos m r c with hr | hr
          · exact Or.inl hr
          · exact Or.inr hr.1
        · exact Or.inr hg
      · rw [ihpos, hb2, hb1]
        exact rawMove_roundtrip_at b.grid pos m
    · exact ⟨fun x hx => hx, ⟨rfl, rfl, rfl, rfl, rfl, rfl, rfl, rfl, rfl, rfl⟩,
        fun r c => Or.inl rfl, rfl⟩

/-- The board-and-list contract of `get_valid_moves`: the returned moves are
a subset of the generated moves for the original board, the non-grid fields
are untouched, grid cells are at most blanked, and the queried square keeps
its piece. -/
theorem getValidMoves_spec (b : Board) (pos : Int × Int) (ao vp : Bool) :
    (∀ x ∈ (getValidMoves b pos ao vp).1, x ∈ genMoves b pos ao) ∧
    sameCtrl (getValidMoves b pos ao vp).2 b ∧
    (∀ r c, (getValidMoves b pos ao vp).2.grid r c = b.grid r c ∨
            (getValidMoves b pos ao vp).2.grid r c = '.') ∧
    (getValidMoves b pos ao vp).2.grid pos.1 pos.2 = b.grid pos.1 pos.2 := by
  unfold getValidMoves
  split
  · exact pinFilterAux_spec pos (genMoves b pos ao).length 0 (genMoves b pos ao) b
  · exact ⟨fun x hx => hx, ⟨rfl, rfl, rfl, rfl, rfl, rfl, rfl, rfl, rfl, rfl⟩,
      fun r c => Or.inl rfl, rfl⟩

/-- Shape of generated pawn moves: every destination is on the board and is
the single advance, the double advance (only from the start row), or one of
the two diagonal squares. -/
theorem pawnMoves_mem (b : Board) (row col : Int) (w ao : Bool) (x : Int × Int)
    (hx : x ∈ pawnMoves b row col w ao) :
    isInside x.1 x.2 ∧
    (x = (row + (if w then -1 else 1), col) ∨
     (x = (row + 2 * (if w then -1 else 1), col) ∧ row = (if w then 6 else 1)) ∨
     x = (row + (if w then -1 else 1), col + -1) ∨
     x = (row + (if w then -1 else 1), col + 1)) := by
  obtain ⟨dir, hdir⟩ : ∃ d : Int, (if w then (-1 : Int) else 1) = d := ⟨_, rfl⟩
  obtain ⟨srow, hsrow⟩ : ∃ v : Int, (if w then (6 : Int) else 1) = v := ⟨_, rfl⟩
  rw [hdir, hsrow]
  simp only [pawnMoves, hdir, hsrow, List.mem_append] at hx
  rcases hx with (hfwd | hcap) | hcap
  · split at hfwd
    · exact absurd hfwd (List.not_mem_nil x)
    · split at hfwd
      · next hc =>
        rcases List.mem_cons.mp hfwd with h | h
        · subst h; exact ⟨hc.1, Or.inl rfl⟩
        · rcases mem_appendIf.mp h with ⟨⟨hrow, hin, _⟩, hxx⟩
          subst hxx; exact ⟨hin, Or.inr (Or.inl ⟨rfl, hrow⟩)⟩
      · exact absurd hfwd (List.not_mem_nil x)
  · split at hcap
    · next hin =>
      simp only [List.mem_append] at hcap
      rcases hcap with h | h
      · rcases mem_appendIf.mp h with ⟨_, hxx⟩
        subst hxx; exact ⟨hin, Or.inr (Or.inr (Or.inl rfl))⟩
      · rcases hep : b.enPassant with _ | ep <;> rw [hep] at h
        · exact absurd h (List.not_mem_nil x)
        · rcases mem_appendIf.mp h with ⟨_, hxx⟩
          subst hxx; exact ⟨hin, Or.inr (Or.inr (Or.inl rfl))⟩
    · exact absurd hcap (List.not_mem_nil x)
  · split at hcap
    · next hin =>
      simp only [List.mem_append] at hcap
      rcases hcap with h | h
      · rcases mem_appendIf.mp h with ⟨_, hxx⟩
        subst hxx; exact ⟨hin, Or.inr (Or.inr (Or.inr rfl))⟩
      · rcases hep : b.enPassant with _ | ep <;> rw [hep] at h
        · exact absurd h (List.not_mem_nil x)
        · rcases mem_appendIf.mp h with ⟨_, hxx⟩
          subst hxx; exact ⟨hin, Or.inr (Or.inr (Or.inr rfl))⟩
    · exact absurd hcap (List.not_mem_nil x)

/-- Shape of knight/king step moves: on the board, source plus an offset. -/
theorem stepMoves_mem (b : Board) (row col : Int) (w : Bool)
    (offs : List (Int × Int)) (x : Int × Int) (hx : x ∈ stepMoves b row col w offs) :
    isInside x.1 x.2 ∧ ∃ o ∈ offs, x = (row + o.1, col + o.2) := by
  induction offs with
  | nil => simp [stepMoves] at hx
  | cons o t ih =>
    simp only [stepMoves, List.foldr_cons, List.mem_append] at hx
    rcases hx with h | h
    · rcases mem_appendIf.mp h with ⟨hc, hxx⟩
      subst hxx
      exact ⟨hc.1, o, List.mem_cons_self o t, rfl⟩
    · have h' : x ∈ stepMoves b row col w t := h
      obtain ⟨hin, o', ho', heq⟩ := ih h'
      exact ⟨hin, o', List.mem_cons_of_mem o ho', heq⟩

/-- Every square produced by a sliding ray is on the board. -/
theorem rayMoves_mem (b : Board) (w : Bool) (dr dc : Int) :
    ∀ (fuel : Nat) (r c : Int) (x : Int × Int),
      x ∈ rayMoves b w dr dc r c fuel → isInside x.1 x.2 := by
  intro fuel
  induction fuel with
  | zero => intro r c x hx; simp [rayMoves] at hx
  | succ n ih =>
    intro r c x hx
    rw [rayMoves] at hx
    split at hx
    · next hin =>
      split at hx
      · rcases List.mem_cons.mp hx with h | h
        · subst h; exact hin
        · exact ih _ _ _ h
      · split at hx
        · have h := List.mem_singleton.mp hx
          subst h; exact hin
        · exact absurd hx (List.not_mem_nil x)
    · exact absurd hx (List.not_mem_nil x)

/-- Every square produced by the sliding-piece branches is on the board. -/
theorem slideMoves_mem (b : Board) (row col : Int) (w : Bool)
    (dirs : List (Int × Int)) (x : Int × Int) (hx : x ∈ slideMoves b row col w dirs) :
    isInside x.1 x.2 := by
  induction dirs with
  | nil => simp [slideMoves] at hx
  | cons d t ih =>
    simp only [slideMoves, List.foldr_cons, List.mem_append] at hx
    rcases hx with h | h
    · exact rayMoves_mem b w d.1 d.2 8 row col x h
    · exact ih (show x ∈ slideMoves b row col w t from h)

/-- Every castling destination is on the board. -/
theorem castleMoves_mem (b : Board) (row col : Int) (w : Bool) (x : Int × Int)
    (hx : x ∈ castleMoves b row col w) : isInside x.1 x.2 := by
  unfold castleMoves at hx
  split at hx
  · simp only [List.mem_append] at hx
    rcases hx with h | h <;> rcases mem_appendIf.mp h with ⟨_, hxx⟩ <;>
      subst hxx <;> decide
  · split at hx
    · simp only [List.mem_append] at hx
      rcases hx with h | h <;> rcases mem_appendIf.mp h with ⟨_, hxx⟩ <;>
        subst hxx <;> decide
    · exact absurd hx (List.not_mem_nil x)

/-- Every move produced by the piece dispatch is on the board. -/
theorem genMovesNoCastle_mem (b : Board) (pos : Int × Int) (ao : Bool)
    (x : Int × Int) (hx : x ∈ genMovesNoCastle b pos ao) : isInside x.1 x.2 := by
  simp only [genMovesNoCastle] at hx
  split at hx
  · exact absurd hx (List.not_mem_nil x)
  · split at hx
    · exact (pawnMoves_mem _ _ _ _ _ _ hx).1
    · split at hx
      · exact (stepMoves_mem _ _ _ _ _ _ hx).1
      · split at hx
        · exact slideMoves_mem _ _ _ _ _ _ hx
        · split at hx
          · exact slideMoves_mem _ _ _ _ _ _ hx
          · split at hx
            · exact slideMoves_mem _ _ _ _ _ _ hx
            · split at hx
              · exact (stepMoves_mem _ _ _ _ _ _ hx).1
              · exact absurd hx (List.not_mem_nil x)

/-- Every move produced by full generation is on the board. -/
theorem genMoves_mem (b : Board) (pos : Int × Int) (ao : Bool)
    (x : Int × Int) (hx : x ∈ genMoves b pos ao) : isInside x.1 x.2 := by
  simp only [genMoves, List.mem_append] at hx
  rcases hx with h | h
  · exact genMovesNoCastle_mem b pos ao x h
  · split at h
    · exact castleMoves_mem _ _ _ _ _ h
    · exact absurd h (List.not_mem_nil x)

/-- C1: the claim that a failed `make_move` leaves the board exactly as it
was is violated: on `boardC1` the rook move a1-a8 is rejected (a8 is not
among the rook's valid destinations), yet the board returned with the error
no longer holds the black pawn on a3 — the validation phase's pin probe
captured it and the undo did not restore it. -/
theorem c1_failed_commit_mutates_board :
    isOkB (makeMove boardC1 moveC1) = false ∧
    boardC1.grid 5 0 = 'p' ∧
    (errBoard (makeMove boardC1 moveC1) boardC1).grid 5 0 = '.' :=
  ⟨by decide, by decide, by decide⟩

/-- C2: the claim that pin validation excludes every destination that leaves
the moving side's king attacked is violated: on `boardC2` (white rook e2
pinned by the black rook e8 against the white king e1, one king per color)
the destination a2 is returned, although the raw relocation e2-a2 leaves the
white king attacked. -/
theorem c2_pin_validation_admits_self_check :
    ((6 : Int), (0 : Int)) ∈ (getValidMoves boardC2 (6, 4) false true).1 ∧
    inCheck { boardC2 with grid := rawMove boardC2.grid (6, 4) (6, 0) } true = true :=
  ⟨by decide, by decide⟩

/-- C3: the claim that the half-move clock increments on a quiet non-pawn
move is violated: on `boardC3` (clock 5) the quiet rook move a1-a2 commits
with a clock of 0, not 6 — the source tests the destination square after the
relocation, when it always holds the moved piece. -/
theorem c3_halfmove_clock_always_reset :
    isOkB (makeMove boardC3 moveC3) = true ∧
    boardC3.halfmoveClock = 5 ∧
    boardC3.grid 6 0 = '.' ∧
    (boardC3.grid 7 0).toUpper ≠ 'P' ∧
    (okBoard (makeMove boardC3 moveC3) boardC3).halfmoveClock = 0 :=
  ⟨by decide, by decide, by decide, by decide, by decide⟩

/-- C7: the claim that construction fails with `InvalidPromotion` for a
promotion outside {q, b, n, r} is violated: 'x' is not one of the four codes,
yet `Move.__init__` accepts it — the guard's `and` chain can never fire for a
string promotion. -/
theorem c7_invalid_promotion_accepted :
    moveInit (0, 0) (0, 1) (some 'x') =
      Except.ok { source := (0, 0), target := (0, 1), promotion := some 'x' } ∧
    'x' ∉ "qbnr".data :=
  ⟨by rfl, by decide⟩

/-- C9: the claim that a committed en-passant capture changes only the source
and target squares is violated on `boardC9`: the capture d5xe6 commits, the
bypassed pawn e5 indeed remains, the source empties and the target receives
the pawn, but the black knight on c6 — neither source nor target — has also
been deleted by the validation probe of the ordinary capture d5xc6. -/
theorem c9_en_passant_commit_deletes_probed_piece :
    isOkB (makeMove boardC9 moveC9) = true ∧
    boardC9.grid 2 2 = 'n' ∧
    (okBoard (makeMove boardC9 moveC9) boardC9).grid 2 2 = '.' ∧
    (okBoard (makeMove boardC9 moveC9) boardC9).grid 3 4 = 'p' ∧
    (okBoard (makeMove boardC9 moveC9) boardC9).grid 3 3 = '.' ∧
    (okBoard (makeMove boardC9 moveC9) boardC9).grid 2 4 = 'P' :=
  ⟨by decide, by decide, by decide, by decide, by decide, by decide⟩

/-- C4 counterexample: the claim requires the king's current square to be
unattacked for the castling destination to be generated, but on `boardC4` the
white king on e1 is attacked by the black rook on e8 and g1 is returned
anyway — the source checks f1 and g1, never e1. -/
theorem c4_castling_added_with_king_attacked :
    isUnderAttack boardC4 (7, 4) false = true ∧
    ((7 : Int), (6 : Int)) ∈ (getValidMoves boardC4 (7, 4) false true).1 :=
  ⟨by decide, by decide⟩

/-- C10: every destination returned by `get_valid_moves` for an in-bounds
input square, under any combination of the two flags, lies within the 8x8
board. -/
theorem c10_destinations_in_bounds (b : Board) (pos : Int × Int)
    (ao vp : Bool) (m : Int × Int) (_hpos : isInside pos.1 pos.2)
    (hm : m ∈ (getValidMoves b pos ao vp).1) :
    0 ≤ m.1 ∧ m.1 ≤ 7 ∧ 0 ≤ m.2 ∧ m.2 ≤ 7 := by
  have h := (getValidMoves_spec b pos ao vp).1 m hm
  obtain ⟨h1, h2, h3, h4⟩ := genMoves_mem b pos ao m h
  exact ⟨h1, by omega, h3, by omega⟩

/-- C10 witness: the pawn move from e2 on `boardC5` with both default flags,
evaluated at the concrete destination e3. -/
theorem c10_destinations_in_bounds_witness :
    isInside (6 : Int) (4 : Int) ∧
    ((5 : Int), (4 : Int)) ∈ (getValidMoves boardC5 (6, 4) false true).1 ∧
    (0 ≤ (5 : Int) ∧ (5 : Int) ≤ 7 ∧ 0 ≤ (4 : Int) ∧ (4 : Int) ≤ 7) :=
  ⟨by decide, by decide,
   c10_destinations_in_bounds boardC5 (6, 4) false true (5, 4) (by decide) (by decide)⟩

/-- The en-passant step touches no other field. -/
theorem setEnPassantStep_proj (b : Board) (s d : Int × Int) :
    (setEnPassantStep b s d).grid = b.grid ∧
    (setEnPassantStep b s d).whiteTurn = b.whiteTurn ∧
    (setEnPassantStep b s d).castleWK = b.castleWK ∧
    (setEnPassantStep b s d).castleWQ = b.castleWQ ∧
    (setEnPassantStep b s d).castleBK = b.castleBK ∧
    (setEnPassantStep b s d).castleBQ = b.castleBQ :=
  ⟨rfl, rfl, rfl, rfl, rfl, rfl⟩

/-- The castling-rights step touches only the four rights flags. -/
theorem castlingRightsStep_proj (b : Board) (s : Int × Int) :
    (castlingRightsStep b s).grid = b.grid ∧
    (castlingRightsStep b s).whiteTurn = b.whiteTurn ∧
    (castlingRightsStep b s).enPassant = b.enPassant := by
  simp only [castlingRightsStep]
  split_ifs <;> exact ⟨rfl, rfl, rfl⟩

/-- Field preservation of the `clearOwnCheckStep` stage. -/
@[simp] theorem clearOwnCheckStep_enPassant (b : Board) :
    (clearOwnCheckStep b).enPassant = b.enPassant := by
  unfold clearOwnCheckStep; split_ifs <;> rfl

/-- Field preservation of the `clearOwnCheckStep` stage. -/
@[simp] theorem clearOwnCheckStep_castleWK (b : Board) :
    (clearOwnCheckStep b).castleWK = b.castleWK := by
  unfold clearOwnCheckStep; split_ifs <;> rfl

/-- Field preservation of the `clearOwnCheckStep` stage. -/
@[simp] theorem clearOwnCheckStep_castleWQ (b : Board) :
    (clearOwnCheckStep b).castleWQ = b.castleWQ := by
  unfold clearOwnCheckStep; split_ifs <;> rfl

/-- Field preservation of the `clearOwnCheckStep` stage. -/
@[simp] theorem clearOwnCheckStep_castleBK (b : Board) :
    (clearOwnCheckStep b).castleBK = b.castleBK := by
  unfold clearOwnCheckStep; split_ifs <;> rfl

/-- Field preservation of the `clearOwnCheckStep` stage. -/
@[simp] theorem clearOwnCheckStep_castleBQ (b : Board) :
    (clearOwnCheckStep b).castleBQ = b.castleBQ := by
  unfold clearOwnCheckStep; split_ifs <;> rfl

/-- Field preservation of the `halfmoveClockStep` stage. -/
@[simp] theorem halfmoveClockStep_enPassant (b : Board) (s d : Int × Int) :
    (halfmoveClockStep b s d).enPassant = b.enPassant := by
  unfold halfmoveClockStep; split_ifs <;> rfl

/-- Field preservation of the `halfmoveClockStep` stage. -/
@[simp] theorem halfmoveClockStep_castleWK (b : Board) (s d : Int × Int) :
    (halfmoveClockStep b s d).castleWK = b.castleWK := by
  unfold halfmoveClockStep; split_ifs <;> rfl

/-- Field preservation of the `halfmoveClockStep` stage. -/
@[simp] theorem halfmoveClockStep_castleWQ (b : Board) (s d : Int × Int) :
    (halfmoveClockStep b s d).castleWQ = b.castleWQ := by
  unfold halfmoveClockStep; split_ifs <;> rfl

/-- Field preservation of the `halfmoveClockStep` stage. -/
@[simp] theorem halfmoveClockStep_castleBK (b : Board) (s d : Int × Int) :
    (halfmoveClockStep b s d).castleBK = b.castleBK := by
  unfold halfmoveClockStep; split_ifs <;> rfl

/-- Field preservation of the `halfmoveClockStep` stage. -/
@[simp] theorem halfmoveClockStep_castleBQ (b : Board) (s d : Int × Int) :
    (halfmoveClockStep b s d).castleBQ = b.castleBQ := by
  unfold halfmoveClockStep; split_ifs <;> rfl

/-- Field preservation of the `fullmoveStep` stage. -/
@[simp] theorem fullmoveStep_enPassant (b : Board) :
    (fullmoveStep b).enPassant = b.enPassant := by
  unfold fullmoveStep; split_ifs <;> rfl

/-- Field preservation of the `fullmoveStep` stage. -/
@[simp] theorem fullmoveStep_castleWK (b : Board) :
    (fullmoveStep b).castleWK = b.castleWK := by
  unfold fullmoveStep; split_ifs <;> rfl

/-- Field preservation of the `fullmoveStep` stage. -/
@[simp] theorem fullmoveStep_castleWQ (b : Board) :
    (fullmoveStep b).castleWQ = b.castleWQ := by
  unfold fullmoveStep; split_ifs <;> rfl

/-- Field preservation of the `fullmoveStep` stage. -/
@[simp] theorem fullmoveStep_castleBK (b : Board) :
    (fullmoveStep b).castleBK = b.castleBK := by
  unfold fullmoveStep; split_ifs <;> rfl

/-- Field preservation of the `fullmoveStep` stage. -/
@[simp] theorem fullmoveStep_castleBQ (b : Board) :
    (fullmoveStep b).castleBQ = b.castleBQ := by
  unfold fullmoveStep; split_ifs <;> rfl

/-- Field preservation of the `flipTurnStep` stage. -/
@[simp] theorem flipTurnStep_enPassant (b : Board) :
    (flipTurnStep b).enPassant = b.enPassant := by
  rfl

/-- Field preservation of the `flipTurnStep` stage. -/
@[simp] theorem flipTurnStep_castleWK (b : Board) :
    (flipTurnStep b).castleWK = b.castleWK := by
  rfl

/-- Field preservation of the `flipTurnStep` stage. -/
@[simp] theorem flipTurnStep_castleWQ (b : Board) :
    (flipTurnStep b).castleWQ = b.castleWQ := by
  rfl

/-- Field preservation of the `flipTurnStep` stage. -/
@[simp] theorem flipTurnStep_castleBK (b : Board) :
    (flipTurnStep b).castleBK = b.castleBK := by
  rfl

/-- Field preservation of the `flipTurnStep` stage. -/
@[simp] theorem flipTurnStep_castleBQ (b : Board) :
    (flipTurnStep b).castleBQ = b.castleBQ := by
  rfl

/-- Field preservation of the `newCheckStep` stage. -/
@[simp] theorem newCheckStep_enPassant (b : Board) :
    (newCheckStep b).enPassant = b.enPassant := by
  unfold newCheckStep; split_ifs <;> rfl

/-- Field preservation of the `newCheckStep` stage. -/
@[simp] theorem newCheckStep_castleWK (b : Board) :
    (newCheckStep b).castleWK = b.castleWK := by
  unfold newCheckStep; split_ifs <;> rfl

/-- Field preservation of the `newCheckStep` stage. -/
@[simp] theorem newCheckStep_castleWQ (b : Board) :
    (newCheckStep b).castleWQ = b.castleWQ := by
  unfold newCheckStep; split_ifs <;> rfl

/-- Field preservation of the `newCheckStep` stage. -/
@[simp] theorem newCheckStep_castleBK (b : Board) :
    (newCheckStep b).castleBK = b.castleBK := by
  unfold newCheckStep; split_ifs <;> rfl

/-- Field preservation of the `newCheckStep` stage. -/
@[simp] theorem newCheckStep_castleBQ (b : Board) :
    (newCheckStep b).castleBQ = b.castleBQ := by
  unfold newCheckStep; split_ifs <;> rfl

/-- The committed board's en-passant target is the one the en-passant step
computed. -/
theorem applyCommit_enPassant (b : Board) (s d : Int × Int) :
    (applyCommit b s d).enPassant = (setEnPassantStep b s d).enPassant := by
  simp only [applyCommit, newCheckStep_enPassant, flipTurnStep_enPassant,
    fullmoveStep_enPassant, halfmoveClockStep_enPassant, clearOwnCheckStep_enPassant]
  exact (castlingRightsStep_proj _ s).2.2

/-- The committed board's rights flags are the ones the castling-rights step
computed. -/
theorem applyCommit_castleFlags (b : Board) (s d : Int × Int) :
    (applyCommit b s d).castleWK = (castlingRightsStep (setEnPassantStep b s d) s).castleWK ∧
    (applyCommit b s d).castleWQ = (castlingRightsStep (setEnPassantStep b s d) s).castleWQ ∧
    (applyCommit b s d).castleBK = (castlingRightsStep (setEnPassantStep b s d) s).castleBK ∧
    (applyCommit b s d).castleBQ = (castlingRightsStep (setEnPassantStep b s d) s).castleBQ := by
  refine ⟨?_, ?_, ?_, ?_⟩ <;> simp [applyCommit]

/-- Unpacking a successful `make_move`: the result is the committed board,
the target passed validation, and the source square (on the possibly
probe-mutated board) holds a piece of the side to move. -/
theorem makeMove_ok_elim (b : Board) (mv : Move) (b' : Board)
    (h : makeMove b mv = Except.ok b') :
    b' = applyCommit (getValidMoves b mv.source false true).2 mv.source mv.target ∧
    mv.target ∈ (getValidMoves b mv.source false true).1 ∧
    (getValidMoves b mv.source false true).2.grid mv.source.1 mv.source.2 ≠ '.' ∧
    ((getValidMoves b mv.source false true).2.grid mv.source.1 mv.source.2).isUpper =
      (getValidMoves b mv.source false true).2.whiteTurn := by
  simp only [makeMove] at h
  split at h
  · exact Except.noConfusion h
  · next hcond =>
    push_neg at hcond
    injection h with h
    exact ⟨h.symm, hcond.1, hcond.2.1, hcond.2.2⟩

/-- Reduction of a validated non-castling target to pawn-move membership when
the source piece is a pawn. -/
theorem validated_pawn_target (b : Board) (mv : Move)
    (hmem : mv.target ∈ (getValidMoves b mv.source false true).1)
    (hne : b.grid mv.source.1 mv.source.2 ≠ '.')
    (hP : (b.grid mv.source.1 mv.source.2).toUpper = 'P') :
    mv.target ∈ pawnMoves b mv.source.1 mv.source.2
      (b.grid mv.source.1 mv.source.2).isUpper false := by
  have hgen := (getValidMoves_spec b mv.source false true).1 mv.target hmem
  simp only [genMoves, List.mem_append] at hgen
  rcases hgen with h1 | h1
  · simp only [genMovesNoCastle] at h1
    rw [if_neg hne, if_pos hP] at h1
    exact h1
  · rw [if_neg] at h1
    · exact absurd h1 (List.not_mem_nil _)
    · rintro ⟨hk, _⟩
      rw [hP] at hk
      exact absurd hk (by decide)

/-- C5: after every successful commit, the en-passant target is
Some (skipped square) exactly when the committed move was a two-square pawn
advance, and None after every other committed move. -/
theorem c5_en_passant_exactly_on_double_advance (b : Board) (mv : Move) (b' : Board)
    (h : makeMove b mv = Except.ok b') :
    (isTwoSquarePawnAdvance b mv → b'.enPassant = some (skippedSquare b mv)) ∧
    (¬ isTwoSquarePawnAdvance b mv → b'.enPassant = none) := by
  obtain ⟨hb', hmem, hne, hup⟩ := makeMove_ok_elim b mv b' h
  obtain ⟨hsub, hctrl, hgrid, hposq⟩ := getValidMoves_spec b mv.source false true
  set R := getValidMoves b mv.source false true with hR
  have hturn : R.2.whiteTurn = b.whiteTurn := hctrl.1
  have hne' : b.grid mv.source.1 mv.source.2 ≠ '.' := by rw [← hposq]; exact hne
  have hupb : (b.grid mv.source.1 mv.source.2).isUpper = b.whiteTurn := by
    rw [← hposq, hup, hturn]
  rw [hb']
  rw [applyCommit_enPassant]
  simp only [setEnPassantStep, skippedSquare, isTwoSquarePawnAdvance]
  rw [hposq, hturn]
  constructor
  · rintro ⟨hP, hrow, htgt⟩
    rw [if_pos ⟨hP, hrow, by rw [htgt]⟩]
  · intro hnadv
    rw [if_neg ?hn]
    case hn =>
      rintro ⟨hP, hrow, hd⟩
      apply hnadv
      refine ⟨hP, hrow, ?_⟩
      have hpw := validated_pawn_target b mv hmem hne' hP
      obtain ⟨_, hshape⟩ :=
        pawnMoves_mem b mv.source.1 mv.source.2 _ false mv.target hpw
      rw [hupb] at hshape
      rw [Prod.ext_iff]
      cases hw : b.whiteTurn with
      | false =>
        rw [hw] at hshape hrow hd
        simp only [if_neg Bool.false_ne_true] at hshape hrow hd
        dsimp only
        simp only [if_neg Bool.false_ne_true]
        rcases hshape with h1 | ⟨h1, _⟩ | h1 | h1 <;>
          (rw [Prod.ext_iff] at h1
           dsimp only at h1
           obtain ⟨h11, h12⟩ := h1
           first
             | exact ⟨by omega, h12⟩
             | (exfalso; omega))
      | true =>
        rw [hw] at hshape hrow hd
        simp only [if_pos rfl] at hshape hrow hd
        dsimp only
        simp only [if_pos rfl]
        rcases hshape with h1 | ⟨h1, _⟩ | h1 | h1 <;>
          (rw [Prod.ext_iff] at h1
           dsimp only at h1
           obtain ⟨h11, h12⟩ := h1
           first
             | exact ⟨by omega, h12⟩
             | (exfalso; omega))

/-- C5 witness: the double pawn advance e2-e4 on `boardC5` commits and yields
the en-passant target e3 = (5, 4). -/
theorem c5_en_passant_witness :
    (okBoard (makeMove boardC5 moveC5) boardC5).enPassant = some ((5 : Int), (4 : Int)) ∧
    isTwoSquarePawnAdvance boardC5 moveC5 := by
  have h : makeMove boardC5 moveC5 =
      Except.ok (okBoard (makeMove boardC5 moveC5) boardC5) := by rfl
  have h2 := (c5_en_passant_exactly_on_double_advance boardC5 moveC5 _ h).1 (by decide)
  exact ⟨by rw [h2]; rfl, by decide⟩

/-- Filtering a duplicate-free list by a predicate that holds exactly at one
of its members yields that singleton. -/
theorem filter_eq_singleton_of_unique (pred : Int × Int → Bool) (x : Int × Int) :
    ∀ l : List (Int × Int), l.Nodup → x ∈ l →
      (∀ y ∈ l, pred y = true ↔ y = x) → l.filter pred = [x] := by
  intro l
  induction l with
  | nil => intro _ hx; exact absurd hx (List.not_mem_nil x)
  | cons a t ih =>
    intro hnd hx hchar
    simp only [List.filter_cons]
    by_cases hax : a = x
    · subst hax
      have hpa : pred a = true := (hchar a (List.mem_cons_self a t)).mpr rfl
      rw [if_pos hpa]
      have ht : t.filter pred = [] := by
        rw [List.filter_eq_nil_iff]
        intro y hy hpy
        have hyx := (hchar y (List.mem_cons_of_mem a hy)).mp hpy
        rw [hyx] at hy
        exact (List.nodup_cons.mp hnd).1 hy
      rw [ht]
    · have hpa : pred a = false := by
        cases hpab : pred a
        · rfl
        · exact absurd ((hchar a (List.mem_cons_self a t)).mp hpab) hax
      rw [if_neg (by rw [hpa]; exact Bool.false_ne_true)]
      have hxt : x ∈ t := by
        rcases List.mem_cons.mp hx with h1 | h1
        · exact absurd h1.symm hax
        · exact h1
      exact ih (List.nodup_cons.mp hnd).2 hxt
        (fun y hy => hchar y (List.mem_cons_of_mem a hy))

/-- A unique piece occurrence survives the pin probes: probes only blank
squares, and the probed piece's own square is restored, so `find` still
reports exactly the original square. -/
theorem findPiece_unique_of (g g' : Grid) (p : Char) (pos : Int × Int)
    (hp : p ≠ '.')
    (hu : findPiece g p = [pos])
    (hcell : ∀ r c, g' r c = g r c ∨ g' r c = '.')
    (hpos : g' pos.1 pos.2 = g pos.1 pos.2) :
    findPiece g' p = [pos] := by
  have hposall : pos ∈ allSquares ∧ g pos.1 pos.2 = p := by
    have : pos ∈ findPiece g p := by rw [hu]; exact List.mem_singleton.mpr rfl
    have h2 := List.mem_filter.mp this
    exact ⟨h2.1, of_decide_eq_true h2.2⟩
  apply filter_eq_singleton_of_unique _ pos allSquares (by decide) hposall.1
  intro y hy
  constructor
  · intro hpy
    have hpy' : g' y.1 y.2 = p := of_decide_eq_true hpy
    have hgy : g y.1 y.2 = p := by
      rcases hcell y.1 y.2 with hc | hc
      · rw [← hc]; exact hpy'
      · exact absurd (hc ▸ hpy') (fun hcontra => hp hcontra.symm)
    have : y ∈ findPiece g p := List.mem_filter.mpr ⟨hy, decide_eq_true hgy⟩
    rw [hu] at this
    exact List.mem_singleton.mp this
  · rintro rfl
    exact decide_eq_true (by rw [hpos]; exact hposall.2)

/-- Moving from the square `find` reports for the mover's king clears both of
that color's castling rights. -/
theorem castlingRightsStep_king (b : Board) (s : Int × Int)
    (hk : (findPiece b.grid (if b.whiteTurn = true then 'K' else 'k')).head?.getD (-1, -1) = s) :
    (b.whiteTurn = true → (castlingRightsStep b s).castleWK = false ∧
      (castlingRightsStep b s).castleWQ = false) ∧
    (b.whiteTurn = false → (castlingRightsStep b s).castleBK = false ∧
      (castlingRightsStep b s).castleBQ = false) := by
  constructor <;> intro hw <;>
    simp only [castlingRightsStep, hk, hw, eq_self_iff_true, if_true,
      Bool.false_eq_true, if_false] <;>
    split_ifs <;> simp_all

/-- Moving a piece whose `upper()` is 'R' from the mover's queenside rook
home square clears that color's queenside right. -/
theorem castlingRightsStep_rookQ (b : Board) (s : Int × Int)
    (hr : (b.grid s.1 s.2).toUpper = 'R')
    (hq : s = (if b.whiteTurn = true then ((7 : Int), (0 : Int)) else (0, 0))) :
    (b.whiteTurn = true → (castlingRightsStep b s).castleWQ = false) ∧
    (b.whiteTurn = false → (castlingRightsStep b s).castleBQ = false) := by
  constructor <;> intro hw <;> rw [hw] at hq <;>
    simp only [castlingRightsStep, hw, eq_self_iff_true, if_true,
      Bool.false_eq_true, if_false] <;>
    split_ifs <;> simp_all

/-- Moving a piece whose `upper()` is 'R' from the mover's kingside rook home
square clears that color's kingside right. -/
theorem castlingRightsStep_rookK (b : Board) (s : Int × Int)
    (hr : (b.grid s.1 s.2).toUpper = 'R')
    (hq : s = (if b.whiteTurn = true then ((7 : Int), (7 : Int)) else (0, 7))) :
    (b.whiteTurn = true → (castlingRightsStep b s).castleWK = false) ∧
    (b.whiteTurn = false → (castlingRightsStep b s).castleBK = false) := by
  constructor <;> intro hw <;> rw [hw] at hq <;>
    simp only [castlingRightsStep, hw, eq_self_iff_true, if_true,
      Bool.false_eq_true, if_false] <;>
    split_ifs <;> simp_all

/-- The castling-rights step never turns a rights flag back on. -/
theorem castlingRightsStep_mono (b : Board) (s : Int × Int) :
    ((castlingRightsStep b s).castleWK = true → b.castleWK = true) ∧
    ((castlingRightsStep b s).castleWQ = true → b.castleWQ = true) ∧
    ((castlingRightsStep b s).castleBK = true → b.castleBK = true) ∧
    ((castlingRightsStep b s).castleBQ = true → b.castleBQ = true) := by
  simp only [castlingRightsStep]
  split_ifs <;> refine ⟨?_, ?_, ?_, ?_⟩ <;> intro hx <;> simp_all

/-- C6: on every successful commit, moving the mover's (unique) king clears
both of that color's castling rights, moving a rook off its home square
clears the matching wing's right, and no rights flag ever turns back on. -/
theorem c6_castling_rights (b : Board) (mv : Move) (b' : Board)
    (h : makeMove b mv = Except.ok b') :
    ((findPiece b.grid (if b.whiteTurn = true then 'K' else 'k') = [mv.source]) →
       (b.whiteTurn = true → b'.castleWK = false ∧ b'.castleWQ = false) ∧
       (b.whiteTurn = false → b'.castleBK = false ∧ b'.castleBQ = false)) ∧
    (((b.grid mv.source.1 mv.source.2).toUpper = 'R' ∧
      mv.source = (if b.whiteTurn = true then ((7 : Int), (0 : Int)) else (0, 0))) →
       (b.whiteTurn = true → b'.castleWQ = false) ∧
       (b.whiteTurn = false → b'.castleBQ = false)) ∧
    (((b.grid mv.source.1 mv.source.2).toUpper = 'R' ∧
      mv.source = (if b.whiteTurn = true then ((7 : Int), (7 : Int)) else (0, 7))) →
       (b.whiteTurn = true → b'.castleWK = false) ∧
       (b.whiteTurn = false → b'.castleBK = false)) ∧
    ((b'.castleWK = true → b.castleWK = true) ∧
     (b'.castleWQ = true → b.castleWQ = true) ∧
     (b'.castleBK = true → b.castleBK = true) ∧
     (b'.castleBQ = true → b.castleBQ = true)) := by
  obtain ⟨hb', hmem, hne, hup⟩ := makeMove_ok_elim b mv b' h
  obtain ⟨hsub, hctrl, hgrid, hposq⟩ := getValidMoves_spec b mv.source false true
  set R := getValidMoves b mv.source false true with hR
  clear_value R
  clear hR h
  obtain ⟨hct, hcWK, hcWQ, hcBK, hcBQ, _⟩ := hctrl
  obtain ⟨hfWK, hfWQ, hfBK, hfBQ⟩ := applyCommit_castleFlags R.2 mv.source mv.target
  rw [hb', hfWK, hfWQ, hfBK, hfBQ]
  refine ⟨?_, ?_, ?_, ?_⟩
  · intro hku
    have hp : (if b.whiteTurn = true then 'K' else 'k') ≠ '.' := by
      split_ifs <;> decide
    have hfind : findPiece R.2.grid (if b.whiteTurn = true then 'K' else 'k') =
        [mv.source] :=
      findPiece_unique_of b.grid R.2.grid _ mv.source hp hku hgrid hposq
    have hk2 : (findPiece (setEnPassantStep R.2 mv.source mv.target).grid
        (if (setEnPassantStep R.2 mv.source mv.target).whiteTurn = true then 'K' else 'k')).head?.getD
        (-1, -1) = mv.source := by
      show (findPiece R.2.grid
        (if R.2.whiteTurn = true then 'K' else 'k')).head?.getD (-1, -1) = mv.source
      rw [hct, hfind]
      rfl
    have hkk := castlingRightsStep_king (setEnPassantStep R.2 mv.source mv.target)
      mv.source hk2
    constructor <;> intro hw
    · exact hkk.1 (show R.2.whiteTurn = true by rw [hct]; exact hw)
    · exact hkk.2 (show R.2.whiteTurn = false by rw [hct]; exact hw)
  · rintro ⟨hr, hq⟩
    have hr2 : ((setEnPassantStep R.2 mv.source mv.target).grid mv.source.1
        mv.source.2).toUpper = 'R' := by
      show (R.2.grid mv.source.1 mv.source.2).toUpper = 'R'
      rw [hposq]; exact hr
    have hq2 : mv.source = (if (setEnPassantStep R.2 mv.source mv.target).whiteTurn = true
        then ((7 : Int), (0 : Int)) else (0, 0)) := by
      show mv.source = (if R.2.whiteTurn = true then ((7 : Int), (0 : Int)) else (0, 0))
      rw [hct]; exact hq
    have hrr := castlingRightsStep_rookQ _ _ hr2 hq2
    constructor <;> intro hw
    · exact hrr.1 (show R.2.whiteTurn = true by rw [hct]; exact hw)
    · exact hrr.2 (show R.2.whiteTurn = false by rw [hct]; exact hw)
  · rintro ⟨hr, hq⟩
    have hr2 : ((setEnPassantStep R.2 mv.source mv.target).grid mv.source.1
        mv.source.2).toUpper = 'R' := by
      show (R.2.grid mv.source.1 mv.source.2).toUpper = 'R'
      rw [hposq]; exact hr
    have hq2 : mv.source = (if (setEnPassantStep R.2 mv.source mv.target).whiteTurn = true
        then ((7 : Int), (7 : Int)) else (0, 7)) := by
      show mv.source = (if R.2.whiteTurn = true then ((7 : Int), (7 : Int)) else (0, 7))
      rw [hct]; exact hq
    have hrr := castlingRightsStep_rookK _ _ hr2 hq2
    constructor <;> intro hw
    · exact hrr.1 (show R.2.whiteTurn = true by rw [hct]; exact hw)
    · exact hrr.2 (show R.2.whiteTurn = false by rw [hct]; exact hw)
  · have hm := castlingRightsStep_mono (setEnPassantStep R.2 mv.source mv.target) mv.source
    refine ⟨fun hx => ?_, fun hx => ?_, fun hx => ?_, fun hx => ?_⟩
    · rw [← hcWK]; exact hm.1 hx
    · rw [← hcWQ]; exact hm.2.1 hx
    · rw [← hcBK]; exact hm.2.2.1 hx
    · rw [← hcBQ]; exact hm.2.2.2 hx

/-- C6 witness: the king move e1-e2 on `boardC6` clears both white castling
rights. -/
theorem c6_castling_rights_witness :
    (okBoard (makeMove boardC6 moveC6) boardC6).castleWK = false ∧
    (okBoard (makeMove boardC6 moveC6) boardC6).castleWQ = false := by
  have h : makeMove boardC6 moveC6 =
      Except.ok (okBoard (makeMove boardC6 moveC6) boardC6) := by rfl
  have h2 := (c6_castling_rights boardC6 moveC6 _ h).1 (by decide)
  exact h2.1 (by decide)

/-- With a white king on e1, the dispatch of `get_valid_moves` (pin filter
off) produces the adjacent king moves followed by the castling block. -/
theorem genMoves_king_e1 (b : Board) (h : b.grid 7 4 = 'K') :
    genMoves b ((7 : Int), (4 : Int)) false =
      stepMoves b 7 4 true kingOffsets ++ castleMoves b 7 4 true := by
  unfold genMoves genMovesNoCastle
  dsimp only
  rw [h]
  rw [if_neg (by decide : ¬('K' : Char) = '.'),
    if_neg (by decide : ¬('K' : Char).toUpper = 'P'),
    if_neg (by decide : ¬('K' : Char).toUpper = 'N'),
    if_neg (by decide : ¬('K' : Char).toUpper = 'R'),
    if_neg (by decide : ¬('K' : Char).toUpper = 'B'),
    if_neg (by decide : ¬('K' : Char).toUpper = 'Q'),
    if_pos (by decide : ('K' : Char).toUpper = 'K'),
    if_pos (⟨by decide, by decide⟩ : ('K' : Char).toUpper = 'K' ∧ ¬ false = true),
    (by decide : ('K' : Char).isUpper = true)]

/-- With a black king on e8, the dispatch of `get_valid_moves` (pin filter
off) produces the adjacent king moves followed by the castling block. -/
theorem genMoves_king_e8 (b : Board) (h : b.grid 0 4 = 'k') :
    genMoves b ((0 : Int), (4 : Int)) false =
      stepMoves b 0 4 false kingOffsets ++ castleMoves b 0 4 false := by
  unfold genMoves genMovesNoCastle
  dsimp only
  rw [h]
  rw [if_neg (by decide : ¬('k' : Char) = '.'),
    if_neg (by decide : ¬('k' : Char).toUpper = 'P'),
    if_neg (by decide : ¬('k' : Char).toUpper = 'N'),
    if_neg (by decide : ¬('k' : Char).toUpper = 'R'),
    if_neg (by decide : ¬('k' : Char).toUpper = 'B'),
    if_neg (by decide : ¬('k' : Char).toUpper = 'Q'),
    if_pos (by decide : ('k' : Char).toUpper = 'K'),
    if_pos (⟨by decide, by decide⟩ : ('k' : Char).toUpper = 'K' ∧ ¬ false = true),
    (by decide : ('k' : Char).isUpper = false)]

/-- The two-square castling destinations are never among the adjacent king
moves from the home square. -/
theorem castleSquares_not_adjacent (b : Board) :
    (((7 : Int), (6 : Int)) ∉ stepMoves b 7 4 true kingOffsets) ∧
    (((7 : Int), (2 : Int)) ∉ stepMoves b 7 4 true kingOffsets) ∧
    (((0 : Int), (6 : Int)) ∉ stepMoves b 0 4 false kingOffsets) ∧
    (((0 : Int), (2 : Int)) ∉ stepMoves b 0 4 false kingOffsets) := by
  refine ⟨?_, ?_, ?_, ?_⟩ <;> intro hx <;>
    obtain ⟨_, o, ho, heq⟩ := stepMoves_mem _ _ _ _ kingOffsets _ hx <;>
    (simp only [kingOffsets, List.mem_cons, List.not_mem_nil, or_false] at ho
     rcases ho with rfl | rfl | rfl | rfl | rfl | rfl | rfl | rfl <;>
       exact absurd heq (by decide))

/-- C4 (amended): with the king on its home square, `get_valid_moves`
(attackOnly = false, before pin filtering) contains the castling destination
exactly when the rights flag is set, the squares between king and rook are
empty, the rook is on its home square, and none of the squares the source
actually tests — f1/g1, d1/c1/b1, and their rank-8 mirrors; not the king's
own square — is attacked by the opponent. -/
theorem c4_castling_generation (b : Board) :
    (b.grid 7 4 = 'K' →
      (((7 : Int), (6 : Int)) ∈ (getValidMoves b (7, 4) false false).1 ↔
        (b.castleWK = true ∧ b.grid 7 5 = '.' ∧ b.grid 7 6 = '.' ∧ b.grid 7 7 = 'R' ∧
         ¬ isUnderAttack b (7, 5) false = true ∧ ¬ isUnderAttack b (7, 6) false = true))) ∧
    (b.grid 7 4 = 'K' →
      (((7 : Int), (2 : Int)) ∈ (getValidMoves b (7, 4) false false).1 ↔
        (b.castleWQ = true ∧ b.grid 7 3 = '.' ∧ b.grid 7 2 = '.' ∧ b.grid 7 1 = '.' ∧
         b.grid 7 0 = 'R' ∧ ¬ isUnderAttack b (7, 3) false = true ∧
         ¬ isUnderAttack b (7, 2) false = true ∧ ¬ isUnderAttack b (7, 1) false = true))) ∧
    (b.grid 0 4 = 'k' →
      (((0 : Int), (6 : Int)) ∈ (getValidMoves b (0, 4) false false).1 ↔
        (b.castleBK = true ∧ b.grid 0 5 = '.' ∧ b.grid 0 6 = '.' ∧ b.grid 0 7 = 'r' ∧
         ¬ isUnderAttack b (0, 5) true = true ∧ ¬ isUnderAttack b (0, 6) true = true))) ∧
    (b.grid 0 4 = 'k' →
      (((0 : Int), (2 : Int)) ∈ (getValidMoves b (0, 4) false false).1 ↔
        (b.castleBQ = true ∧ b.grid 0 3 = '.' ∧ b.grid 0 2 = '.' ∧ b.grid 0 1 = '.' ∧
         b.grid 0 0 = 'r' ∧ ¬ isUnderAttack b (0, 3) true = true ∧
         ¬ isUnderAttack b (0, 2) true = true ∧ ¬ isUnderAttack b (0, 1) true = true))) := by
  have hmk := castleSquares_not_adjacent b
  refine ⟨fun h => ?_, fun h => ?_, fun h => ?_, fun h => ?_⟩
  · show ((7 : Int), (6 : Int)) ∈ genMoves b ((7 : Int), (4 : Int)) false ↔ _
    rw [genMoves_king_e1 b h, List.mem_append]
    unfold castleMoves
    rw [if_pos (⟨rfl, rfl, rfl⟩ : (true = true) ∧ ((7 : Int) = 7) ∧ ((4 : Int) = 4)),
      List.mem_append]
    constructor
    · rintro (hstep | hc | hc)
      · exact absurd hstep hmk.1
      · exact (mem_appendIf.mp hc).1
      · exact absurd (mem_appendIf.mp hc).2 (by decide)
    · intro hc
      exact Or.inr (Or.inl (mem_appendIf.mpr ⟨hc, rfl⟩))
  · show ((7 : Int), (2 : Int)) ∈ genMoves b ((7 : Int), (4 : Int)) false ↔ _
    rw [genMoves_king_e1 b h, List.mem_append]
    unfold castleMoves
    rw [if_pos (⟨rfl, rfl, rfl⟩ : (true = true) ∧ ((7 : Int) = 7) ∧ ((4 : Int) = 4)),
      List.mem_append]
    constructor
    · rintro (hstep | hc | hc)
      · exact absurd hstep hmk.2.1
      · exact absurd (mem_appendIf.mp hc).2 (by decide)
      · exact (mem_appendIf.mp hc).1
    · intro hc
      exact Or.inr (Or.inr (mem_appendIf.mpr ⟨hc, rfl⟩))
  · show ((0 : Int), (6 : Int)) ∈ genMoves b ((0 : Int), (4 : Int)) false ↔ _
    rw [genMoves_king_e8 b h, List.mem_append]
    unfold castleMoves
    rw [if_neg (by rintro ⟨hcon, _⟩; exact Bool.false_ne_true hcon),
      if_pos (⟨(by decide), rfl, rfl⟩ :
        (¬ false = true) ∧ ((0 : Int) = 0) ∧ ((4 : Int) = 4)),
      List.mem_append]
    constructor
    · rintro (hstep | hc | hc)
      · exact absurd hstep hmk.2.2.1
      · exact (mem_appendIf.mp hc).1
      · exact absurd (mem_appendIf.mp hc).2 (by decide)
    · intro hc
      exact Or.inr (Or.inl (mem_appendIf.mpr ⟨hc, rfl⟩))
  · show ((0 : Int), (2 : Int)) ∈ genMoves b ((0 : Int), (4 : Int)) false ↔ _
    rw [genMoves_king_e8 b h, List.mem_append]
    unfold castleMoves
    rw [if_neg (by rintro ⟨hcon, _⟩; exact Bool.false_ne_true hcon),
      if_pos (⟨(by decide), rfl, rfl⟩ :
        (¬ false = true) ∧ ((0 : Int) = 0) ∧ ((4 : Int) = 4)),
      List.mem_append]
    constructor
    · rintro (hstep | hc | hc)
      · exact absurd hstep hmk.2.2.2
      · exact absurd (mem_appendIf.mp hc).2 (by decide)
      · exact (mem_appendIf.mp hc).1
    · intro hc
      exact Or.inr (Or.inr (mem_appendIf.mpr ⟨hc, rfl⟩))

/-- C4 witness: on `boardC4w` (king e1, rook h1, empty first rank, no
attackers) the kingside condition holds and g1 is generated. -/
theorem c4_castling_generation_witness :
    boardC4w.grid 7 4 = 'K' ∧
    ((7 : Int), (6 : Int)) ∈ (getValidMoves boardC4w (7, 4) false false).1 :=
  ⟨by decide, ((c4_castling_generation boardC4w).1 (by decide)).mpr (by decide)⟩

/-- Characterization of `_algebraic_to_index`: on a well-formed square it
returns the converted coordinates, which are always on the board; otherwise
it raises. -/
theorem algebraicToIndex_spec (s : String) :
    (wfSquare s = true → algebraicToIndex s = Except.ok (convSquare s) ∧
      isValidPosition (convSquare s) = true) ∧
    (wfSquare s = false → isOkE (algebraicToIndex s) = false) := by
  rcases hd : s.data with _ | ⟨f, _ | ⟨r, _ | ⟨c, rest⟩⟩⟩
  · exact ⟨fun hwf => absurd hwf (by simp [wfSquare, hd]),
      fun _ => by simp [algebraicToIndex, isOkE, hd]⟩
  · exact ⟨fun hwf => absurd hwf (by simp [wfSquare, hd]),
      fun _ => by simp [algebraicToIndex, isOkE, hd]⟩
  · constructor
    · intro hwf
      simp only [wfSquare, hd, Bool.and_eq_true] at hwf
      obtain ⟨hwf1, hwf2⟩ := hwf
      have hok : algebraicToIndex s = Except.ok (convSquare s) := by
        simp only [algebraicToIndex, convSquare, hd]
        rw [if_neg]
        rintro (hcon | hcon)
        · exact hcon hwf1
        · exact hcon hwf2
      refine ⟨hok, ?_⟩
      have hf : f.toLower ∈ ['a', 'b', 'c', 'd', 'e', 'f', 'g', 'h'] := by
        simpa [List.contains, List.elem_iff] using hwf1
      have hr : r ∈ ['1', '2', '3', '4', '5', '6', '7', '8'] := by
        simpa [List.contains, List.elem_iff] using hwf2
      simp only [convSquare, hd]
      simp only [List.mem_cons, List.not_mem_nil, or_false] at hf hr
      rcases hf with hf | hf | hf | hf | hf | hf | hf | hf <;> rw [hf] <;>
        rcases hr with hr | hr | hr | hr | hr | hr | hr | hr <;> rw [hr] <;> decide
    · intro hwf
      simp only [wfSquare, hd, Bool.and_eq_true] at hwf
      simp only [algebraicToIndex, hd]
      rw [if_pos]
      · rfl
      · by_cases h1 : "abcdefgh".data.contains f.toLower = true
        · by_cases h2 : "12345678".data.contains r = true
          · exact absurd (by rw [h1, h2]; rfl :
              ("abcdefgh".data.contains f.toLower &&
               "12345678".data.contains r) = true) (by rw [hwf]; exact Bool.false_ne_true)
          · exact Or.inr h2
        · exact Or.inl h1
  · exact ⟨fun hwf => absurd hwf (by simp [wfSquare, hd]),
      fun _ => by simp [algebraicToIndex, isOkE, hd]⟩

/-- C8 (amended): `from_algebraic` succeeds exactly when both endpoint texts
are two characters with a file letter in 'a'-'h' after lowercasing and a rank
digit in '1'-'8', and then yields row = 8 − rank digit and column = the
lowercased file letter's offset from 'a' for both endpoints (any promotion is
passed through). -/
theorem c8_from_algebraic_characterization (s t : String) (p : Option Char) (m : Move) :
    fromAlgebraic s t p = Except.ok m ↔
      (wfSquare s = true ∧ wfSquare t = true ∧
       m = { source := convSquare s, target := convSquare t, promotion := p }) := by
  constructor
  · intro h
    have hws : wfSquare s = true := by
      by_contra hc
      have hf : wfSquare s = false := by revert hc; cases wfSquare s <;> simp
      have he := (algebraicToIndex_spec s).2 hf
      unfold fromAlgebraic at h
      rcases ha : algebraicToIndex s with e | v
      · rw [ha] at h; exact Except.noConfusion h
      · rw [ha] at he; simp [isOkE] at he
    obtain ⟨has, hvs⟩ := (algebraicToIndex_spec s).1 hws
    have hwt : wfSquare t = true := by
      by_contra hc
      have hf : wfSquare t = false := by revert hc; cases wfSquare t <;> simp
      have he := (algebraicToIndex_spec t).2 hf
      unfold fromAlgebraic at h
      rw [has] at h
      dsimp only at h
      rcases ha : algebraicToIndex t with e | v
      · rw [ha] at h; exact Except.noConfusion h
      · rw [ha] at he; simp [isOkE] at he
    obtain ⟨hat, hvt⟩ := (algebraicToIndex_spec t).1 hwt
    unfold fromAlgebraic at h
    rw [has, hat] at h
    dsimp only at h
    rw [if_neg (fun hc => hc hvs), if_neg (fun hc => hc hvt)] at h
    unfold moveInit at h
    rw [if_neg (fun hc => hc hvs), if_neg (fun hc => hc hvt),
      if_neg (fun hc => hc.2.1 hc.1)] at h
    injection h with h
    exact ⟨hws, hwt, h.symm⟩
  · rintro ⟨hws, hwt, rfl⟩
    obtain ⟨has, hvs⟩ := (algebraicToIndex_spec s).1 hws
    obtain ⟨hat, hvt⟩ := (algebraicToIndex_spec t).1 hwt
    unfold fromAlgebraic
    rw [has, hat]
    dsimp only
    rw [if_neg (fun hc => hc hvs), if_neg (fun hc => hc hvt)]
    unfold moveInit
    rw [if_neg (fun hc => hc hvs), if_neg (fun hc => hc hvt),
      if_neg (fun hc => hc.2.1 hc.1)]

/-- C8 counterexample: "E2"/"E4" have a file character outside 'a'-'h', so
the claim as stated requires `MalformedNotation`, yet the constructor accepts
them — the source lowercases the file letter before checking. -/
theorem c8_uppercase_file_accepted :
    fromAlgebraic "E2" "E4" none =
      Except.ok { source := ((6 : Int), (4 : Int)), target := (4, 4), promotion := none } ∧
    ¬ ('a' ≤ 'E' ∧ 'E' ≤ 'h') :=
  ⟨by rfl, by decide⟩

/-- C8 witness: the well-formed squares "e2"/"e4" convert to (6,4)/(4,4). -/
theorem c8_from_algebraic_witness :
    fromAlgebraic "e2" "e4" none =
      Except.ok { source := ((6 : Int), (4 : Int)), target := (4, 4), promotion := none } :=
  (c8_from_algebraic_characterization "e2" "e4" none _).mpr
    ⟨by decide, by decide, by decide⟩

end Chess

